/-
Verification of the ucf-eeg multi-channel spectrogram pipeline.

Shallow embedding of the parsing / projection / rendering core:
  * `parseEEGParquet`, `getAveragePowerSpectrum`, `convertToSpectrogramData`
    from src/src/components/parquet-parser.tsx;
  * `getColor`, `drawSingleSpectrogram` (the raster core, identical to the
    drawing loop of `drawSpectrogram` in
    src/src/components/spectrogram-visualization.tsx),
    `drawCombinedSpectrogram` and the view-mode dispatcher `drawSpectrogram`
    from src/unnamed/part_003.

Modelling conventions:
  * JS numbers are modelled by `ℚ`.  A table cell that would coerce to NaN
    under JS `Number(...)` is modelled by `none : Option ℚ`; the source's
    uniform `Number(x) || 0` coercion maps it to `0`.
  * The one place where a NaN can flow out of an arithmetic expression and be
    observed is `getColor`'s `(value - min) / (max - min)` when `max == min`;
    there the model returns `none` (see the doc comment of `getColor`).
  * JS `Array.prototype.sort` with the comparator `(a, b) => a.frequency - b.frequency`
    is a stable ascending sort (ES2019); any stable sort agrees with it, so it
    is modelled by `List.insertionSort` (structurally recursive, hence
    kernel-computable) with the corresponding total preorder.
  * Out-of-range JS index reads yield `undefined`; where the source guards
    them (`if (power === undefined) continue`, `if (column) ...`,
    `Number(...) || 0`) the model uses `Option`/default-`0` reads that agree
    with the guarded behaviour.
-/
import Mathlib

namespace UcfEeg

/-! ## Data model -/

/-- One named column of the decoded columnar table.  A cell holds `none` when
the stored value would coerce to NaN under JS `Number(...)` (e.g. a
non-numeric cell); otherwise `some q`. -/
structure Column where
  name : String
  cells : List (Option ℚ)
deriving Repr, DecidableEq

/-- The decoded columnar table handed to `parseEEGParquet` (Arrow table):
row count, ordered schema columns, and free-form schema metadata. -/
structure ColumnarTable where
  numRows : ℕ
  columns : List Column
  metadata : List (String × String)
deriving Repr, DecidableEq

/-- `ChannelData` of parquet-parser.tsx: `frequencies` and
`powerValues[time][frequency]`. -/
structure ChannelData where
  frequencies : List ℚ
  powerValues : List (List ℚ)
deriving Repr, DecidableEq

/-- Metadata block of `ParsedEEGData`. -/
structure EEGMetadata where
  patientId : String
  recordId : String
  samplingRate : ℚ
  duration : ℚ
  totalFrames : ℕ
deriving Repr, DecidableEq

/-- `ParsedEEGData` of parquet-parser.tsx.  The source stores `channels` as a
record object with the four fixed keys; it is modelled as an association list
in the record's key insertion order, so that "which keys exist" is a real
property of the value (claim C10) rather than of the type. -/
structure ParsedEEGData where
  times : List ℚ
  channels : List (String × ChannelData)
  metadata : EEGMetadata
deriving Repr, DecidableEq

/-- Metadata block of `SpectrogramData`. -/
structure SpectrogramMetadata where
  patientId : String
  recordId : String
  samplingRate : ℚ
  duration : ℚ
deriving Repr, DecidableEq

/-- `SpectrogramData` of parquet-parser.tsx: the projected single-channel
view, `powerValues[frequency][time]`. -/
structure SpectrogramData where
  times : List ℚ
  frequencies : List ℚ
  powerValues : List (List ℚ)
  metadata : SpectrogramMetadata
deriving Repr, DecidableEq

/-! ## Channel-tensor builder (`parseEEGParquet`) -/

/-- The fixed channel identifiers, in the insertion order of the source's
`channels` record literal (`LL`, `RL`, `LP`, `RP`). -/
def KNOWN_CHANNELS : List String := [("LL"), ("RL"), ("LP"), ("RP")]

/-- `table.getChild(name)`: first column with the given name. -/
def getChild (tbl : ColumnarTable) (name : String) : Option Column :=
  tbl.columns.find? (fun c => decide (c.name = name))

/-- The source's uniform cell coercion `Number(column.get(t)) || 0` for a
named column: a missing column, an out-of-range row (JS `null`), or a
NaN-coercing cell all yield `0`. -/
def cellAt (tbl : ColumnarTable) (name : String) (t : ℕ) : ℚ :=
  match getChild tbl name with
  | none => 0
  | some c => (c.cells.getD t (some 0)).getD 0

/-- The extracted time axis: `times.push(Number(timeColumn?.get(i)) || 0)` for
`i < table.numRows`.  A missing `time` column yields all zeros (JS
`Number(undefined)` is NaN, then `|| 0`). -/
def timesOf (tbl : ColumnarTable) : List ℚ :=
  (List.range tbl.numRows).map (fun i =>
    ((getChild tbl ("time")).bind (fun c => c.cells.getD i (some 0))).getD 0)

/-- Boolean prefix test on character lists (JS `name.startsWith(channel + "_")`,
kept kernel-computable). -/
def listStartsWith : List Char → List Char → Bool
  | _, [] => true
  | [], _ :: _ => false
  | c :: cs, d :: ds => decide (c = d) && listStartsWith cs ds

/-- Numeric value of a digit string (most significant first). -/
def digitsToNat (ds : List Char) : ℕ :=
  ds.foldl (fun a c => a * 10 + (c.toNat - ('0').toNat)) 0

/-- Model of JS `Number.parseFloat` on the frequency suffix of a column name:
optional sign, then the longest prefix `digits [ "." digits ]`; `none` models
NaN (no digit at all).  Exponent notation, `Infinity` and leading whitespace
are not modelled — the column-naming contract (`"<CHANNEL>_<FREQUENCY>"`,
frequency a plain decimal) never produces them. -/
def parseFloatQ (s : String) : Option ℚ :=
  let signed : ℚ × List Char :=
    match s.data with
    | '-' :: rest => (-1, rest)
    | '+' :: rest => (1, rest)
    | rest => (1, rest)
  let intPart := signed.2.takeWhile Char.isDigit
  let afterInt := signed.2.dropWhile Char.isDigit
  let fracPart :=
    match afterInt with
    | '.' :: r => r.takeWhile Char.isDigit
    | _ => []
  if intPart.isEmpty && fracPart.isEmpty then none
  else some (signed.1 * ((digitsToNat intPart : ℚ) +
    (digitsToNat fracPart : ℚ) / ((10 : ℚ) ^ fracPart.length)))

/-- The `(name, frequency)` pairs matched to a channel: schema columns other
than `time` whose name starts with `"<channel>_"` and whose suffix parses as a
number (columns with an unparseable suffix are silently skipped), in schema
order. -/
def matchedCols (tbl : ColumnarTable) (ch : String) : List (String × ℚ) :=
  tbl.columns.filterMap (fun c =>
    if c.name = ("time") then none
    else if listStartsWith c.name.data (ch.data ++ ['_']) then
      (parseFloatQ (String.mk (c.name.data.drop (ch.length + 1)))).map
        (fun f => (c.name, f))
    else none)

/-- Ascending-by-frequency ordering of matched column pairs. -/
def freqLE (a b : String × ℚ) : Prop := a.2 ≤ b.2

instance : DecidableRel freqLE := fun a b => inferInstanceAs (Decidable (a.2 ≤ b.2))

instance : IsTotal (String × ℚ) freqLE := ⟨fun a b => le_total a.2 b.2⟩

instance : IsTrans (String × ℚ) freqLE := ⟨fun _ _ _ h1 h2 => le_trans h1 h2⟩

/-- `columnsByChannel[channel].sort((a, b) => a.frequency - b.frequency)`:
JS stable ascending sort by frequency, modelled by the stable
`List.insertionSort` (equal output for a total preorder comparator). -/
def sortedCols (tbl : ColumnarTable) (ch : String) : List (String × ℚ) :=
  List.insertionSort freqLE (matchedCols tbl ch)

/-- Per-channel build step of `parseEEGParquet`: sorted `frequencies`, and
`powerValues` with one row per time index, row width = number of matched
columns, entry `(t, freqIndex)` read from the `freqIndex`-th sorted column via
the uniform `Number(...) || 0` coercion (zero-filled where the column lookup
fails, matching the source's zero initialisation). -/
def buildChannel (tbl : ColumnarTable) (ch : String) : ChannelData :=
  let sorted := sortedCols tbl ch
  { frequencies := sorted.map Prod.snd
    powerValues := (List.range (timesOf tbl).length).map (fun t =>
      sorted.map (fun col => cellAt tbl col.1 t)) }

/-- In-place update of an existing key of the `channels` record
(`channels[channel].frequencies = ...; channels[channel].powerValues = ...`).
The source only ever assigns to the four keys present since initialisation. -/
def updateChannel (channels : List (String × ChannelData)) (ch : String)
    (cd : ChannelData) : List (String × ChannelData) :=
  channels.map (fun p => if p.1 = ch then (ch, cd) else p)

/-- Schema-metadata lookup with a default (`table.schema.metadata.get(k) || d`). -/
def metaGet (tbl : ColumnarTable) (key dflt : String) : String :=
  (((tbl.metadata.find? (fun p => decide (p.1 = key))).map Prod.snd).getD dflt)

/-- `parseEEGParquet` of parquet-parser.tsx.  Total (the source function does
not throw past Arrow decoding, which is upstream of this model).  In
`samplingRate` the JS `Infinity` (equal consecutive times) and NaN
(unparseable metadata) corner values are modelled as `0` via `ℚ`'s
division-by-zero / `Option.getD` conventions, and in `duration` the `N = 0`
NaN is modelled as `0`; no claim depends on those two fields. -/
def parseEEGParquet (tbl : ColumnarTable) : ParsedEEGData :=
  let times := timesOf tbl
  let channels0 : List (String × ChannelData) :=
    [(("LL"), ⟨[], []⟩), (("RL"), ⟨[], []⟩), (("LP"), ⟨[], []⟩), (("RP"), ⟨[], []⟩)]
  let channels := KNOWN_CHANNELS.foldl
    (fun acc ch => updateChannel acc ch (buildChannel tbl ch)) channels0
  let samplingRate : ℚ :=
    if 1 < times.length then 1000 / (times.getD 1 0 - times.getD 0 0)
    else (parseFloatQ (metaGet tbl ("sampling_rate") ("0"))).getD 0
  { times := times
    channels := channels
    metadata :=
      { patientId := metaGet tbl ("patient_id") ("")
        recordId := metaGet tbl ("record_id") ("")
        samplingRate := samplingRate
        duration := times.getD (times.length - 1) 0 - times.getD 0 0
        totalFrames := times.length } }

/-! ## Spectrogram projector -/

/-- Record access `parsedData.channels[channel]`. -/
def lookupChannel (d : ParsedEEGData) (ch : String) : Option ChannelData :=
  (d.channels.find? (fun p => decide (p.1 = ch))).map Prod.snd

/-- Matrix read `powerValues[t][f]`; an out-of-range JS read would yield
`undefined`, modelled as `0` (never reached on the in-range indices the
callers and claims use). -/
def getCell2 (rows : List (List ℚ)) (t f : ℕ) : ℚ :=
  (rows.getD t []).getD f 0

/-- `getAveragePowerSpectrum` of parquet-parser.tsx: throws (`Except.error`)
on out-of-range indices, else per channel the per-frequency mean of
`powerValues[t][f]` over `t ∈ [startTimeIndex, endTimeIndex]`. -/
def getAveragePowerSpectrum (d : ParsedEEGData) (startTimeIndex endTimeIndex : ℤ) :
    Except String (List (String × List ℚ)) :=
  if startTimeIndex < 0 ∨ (d.times.length : ℤ) ≤ endTimeIndex ∨
      startTimeIndex > endTimeIndex then
    Except.error ("Time indices out of bounds")
  else
    Except.ok (d.channels.map (fun p =>
      (p.1, (List.range p.2.frequencies.length).map (fun freqIdx =>
        (((List.range (endTimeIndex - startTimeIndex + 1).toNat).map
            (fun k => getCell2 p.2.powerValues (startTimeIndex.toNat + k) freqIdx)).sum) /
          ((endTimeIndex : ℚ) - (startTimeIndex : ℚ) + 1)))))

/-- The spec's formulation of the average: for each frequency index the
arithmetic mean of `powerValues[t][f]` over `t ∈ [startTimeIndex, endTimeIndex]`
inclusive, written as a `Finset.Icc` sum. -/
def averagePowerSpec (cd : ChannelData) (startTimeIndex endTimeIndex : ℤ) : List ℚ :=
  (List.range cd.frequencies.length).map (fun f =>
    (∑ t ∈ Finset.Icc startTimeIndex.toNat endTimeIndex.toNat, getCell2 cd.powerValues t f) /
      ((endTimeIndex : ℚ) - (startTimeIndex : ℚ) + 1))

/-- `convertToSpectrogramData` of parquet-parser.tsx: transpose the channel's
`[time][frequency]` matrix into `[frequency][time]` layout, copying `times`,
`frequencies` and the metadata.  `none` models the `undefined` record access
for a channel key that is not present. -/
def convertToSpectrogramData (d : ParsedEEGData) (channel : String) :
    Option SpectrogramData :=
  (lookupChannel d channel).map (fun channelData =>
    { times := d.times
      frequencies := channelData.frequencies
      powerValues := (List.range channelData.frequencies.length).map (fun f =>
        (List.range d.times.length).map (fun t => getCell2 channelData.powerValues t f))
      metadata :=
        { patientId := d.metadata.patientId
          recordId := d.metadata.recordId
          samplingRate := d.metadata.samplingRate
          duration := d.metadata.duration } })

/-! ## Raster renderer -/

/-- The `viridis` palette of the component's `colorMaps`. -/
def viridisMap : List (ℤ × ℤ × ℤ) :=
  [(68, 1, 84), (72, 40, 120), (62, 83, 160), (49, 104, 142), (38, 130, 142),
   (31, 158, 137), (53, 183, 121), (109, 205, 89), (180, 222, 44), (253, 231, 37)]

/-- The `jet` palette of the component's `colorMaps`. -/
def jetMap : List (ℤ × ℤ × ℤ) :=
  [(0, 0, 131), (0, 60, 170), (5, 255, 255), (255, 255, 0), (250, 0, 0)]

/-- The `hot` palette of the component's `colorMaps`. -/
def hotMap : List (ℤ × ℤ × ℤ) :=
  [(0, 0, 0), (230, 0, 0), (255, 210, 0), (255, 255, 255)]

/-- The `grayscale` palette of the component's `colorMaps`. -/
def grayscaleMap : List (ℤ × ℤ × ℤ) :=
  [(0, 0, 0), (255, 255, 255)]

/-- `colorMaps[colorMap as keyof typeof colorMaps] || colorMaps.viridis`:
palette selection with viridis fallback for an unknown name. -/
def selectColorMap (name : String) : List (ℤ × ℤ × ℤ) :=
  if name = ("viridis") then viridisMap
  else if name = ("jet") then jetMap
  else if name = ("hot") then hotMap
  else if name = ("grayscale") then grayscaleMap
  else viridisMap

/-- JS `Math.round`: round half away from zero towards positive infinity,
i.e. `⌊x + 1/2⌋`. -/
def jsRound (x : ℚ) : ℤ := ⌊x + (1 : ℚ) / 2⌋

/-- `getColor(value, min, max)` of the visualization components.  The source
computes `normalizedValue = (value - min) / (max - min)` with no
divide-by-zero guard.  `none` models the two paths on which JS produces no
well-defined RGB triple:
  * `max - min == 0`: the division yields NaN (`value == min`, the only case
    reachable from the drawing loops, whose `min`/`max` bound every drawn
    value) or `±Infinity`; the NaN flows into the palette index,
    `selectedColorMap[NaN]` is `undefined`, and `color1[0]` throws a
    TypeError caught at the render boundary;
  * a negative palette index (`value < min`, unreachable from the drawing
    loops): `selectedColorMap[index]` is `undefined`, same TypeError.
Otherwise it returns the linear interpolation between the two adjacent
control points, with `Math.round` per component. -/
def getColor (cmap : List (ℤ × ℤ × ℤ)) (value mn mx : ℚ) : Option (ℤ × ℤ × ℤ) :=
  if mx - mn = 0 then none
  else
    let normalizedValue := (value - mn) / (mx - mn)
    let len : ℤ := cmap.length
    let index : ℤ := min ⌊normalizedValue * (len - 1)⌋ (len - 2)
    if index < 0 then none
    else
      match cmap[index.toNat]?, cmap[index.toNat + 1]? with
      | some color1, some color2 =>
        let t := normalizedValue * (len - 1) - (index : ℚ)
        some (jsRound ((color1.1 : ℚ) * (1 - t) + (color2.1 : ℚ) * t),
              jsRound ((color1.2.1 : ℚ) * (1 - t) + (color2.2.1 : ℚ) * t),
              jsRound ((color1.2.2 : ℚ) * (1 - t) + (color2.2.2 : ℚ) * t))
      | _, _ => none

/-- One `ctx.fillRect` call of the drawing loop: position, size (scaled by
`zoomLevel`) and the interpolated fill color. -/
structure Cell where
  x : ℚ
  y : ℚ
  rw : ℚ
  rh : ℚ
  color : ℤ × ℤ × ℤ
deriving Repr, DecidableEq

/-- The running minimum of all entries of the power matrix, as computed by the
source's scan (`minPower` initialised to `+Infinity`, lowered over every value
of every row).  When the matrix has no entries the `+Infinity` initial value
survives but is never consumed (the drawing loop draws no cell); that
unobservable case is modelled as `0`. -/
def minPowerOf (pv : List (List ℚ)) : ℚ :=
  match pv.flatten with
  | [] => 0
  | v :: vs => vs.foldl min v

/-- The running maximum of all entries of the power matrix (`maxPower`,
initialised to `-Infinity`); empty case modelled as `0` as in `minPowerOf`. -/
def maxPowerOf (pv : List (List ℚ)) : ℚ :=
  match pv.flatten with
  | [] => 0
  | v :: vs => vs.foldl max v

/-- Core drawing loop of `drawSingleSpectrogram` (part_003) and
`drawSpectrogram` (spectrogram-visualization.tsx), given the projected view:
  1. `minPower`/`maxPower` scanned over the WHOLE `powerValues` matrix;
  2. time-range filter `[floor(N·lo/100), ceil(N·hi/100))` applied to `times`
     and to every row of `powerValues` (the slider keeps `lo, hi ∈ [0, 100]`,
     so the JS negative-index slice semantics need not be modelled);
  3. cell grid partitioning the surface, with division-by-zero guards
     `(... || 1)` on the cell sizes;
  4. per cell `getColor(power, minPower, maxPower)`; a `none` result models
     the TypeError thrown inside `getColor` aborting the draw (caught at the
     render boundary by the component's try/catch).
Returns the list of filled cells in drawing order. -/
def drawSpectrogramCells (cmapName : String) (lo hi zoom width height : ℚ)
    (sd : SpectrogramData) : Except String (List Cell) :=
  let cmap := selectColorMap cmapName
  let minPower := minPowerOf sd.powerValues
  let maxPower := maxPowerOf sd.powerValues
  let n := sd.times.length
  let startTimeIndex := (⌊(n : ℚ) * (lo / 100)⌋).toNat
  let endTimeIndex := (⌈(n : ℚ) * (hi / 100)⌉).toNat
  let timeSlice := (sd.times.take endTimeIndex).drop startTimeIndex
  let powerSlice := sd.powerValues.map (fun row => (row.take endTimeIndex).drop startTimeIndex)
  let pixelWidth := width / (if timeSlice.length = 0 then 1 else (timeSlice.length : ℚ))
  let pixelHeight := height / (if sd.frequencies.length = 0 then 1 else (sd.frequencies.length : ℚ))
  (List.range sd.frequencies.length).foldlM (fun cells (i : ℕ) =>
    match powerSlice[i]? with
    | none => pure cells
    | some row =>
      (List.range timeSlice.length).foldlM (fun cells2 (j : ℕ) =>
        match row[j]? with
        | none => pure cells2
        | some power =>
          match getColor cmap power minPower maxPower with
          | none => Except.error ("TypeError in getColor")
          | some rgb =>
            pure (cells2 ++ [Cell.mk ((j : ℚ) * pixelWidth)
              (height - ((i : ℚ) + 1) * pixelHeight)
              (pixelWidth * zoom) (pixelHeight * zoom) rgb])) cells) []

/-- Modelled from the spec (§4.5 step 1, claim C1): identical to
`drawSpectrogramCells` except that `minPower`/`maxPower` are computed "across
the visible (time-range-filtered) power slice only" instead of across the
whole matrix.  Used solely to compare the spec's wording with the source. -/
def drawSpectrogramCellsSpec (cmapName : String) (lo hi zoom width height : ℚ)
    (sd : SpectrogramData) : Except String (List Cell) :=
  let cmap := selectColorMap cmapName
  let n := sd.times.length
  let startTimeIndex := (⌊(n : ℚ) * (lo / 100)⌋).toNat
  let endTimeIndex := (⌈(n : ℚ) * (hi / 100)⌉).toNat
  let timeSlice := (sd.times.take endTimeIndex).drop startTimeIndex
  let powerSlice := sd.powerValues.map (fun row => (row.take endTimeIndex).drop startTimeIndex)
  let minPower := minPowerOf powerSlice
  let maxPower := maxPowerOf powerSlice
  let pixelWidth := width / (if timeSlice.length = 0 then 1 else (timeSlice.length : ℚ))
  let pixelHeight := height / (if sd.frequencies.length = 0 then 1 else (sd.frequencies.length : ℚ))
  (List.range sd.frequencies.length).foldlM (fun cells (i : ℕ) =>
    match powerSlice[i]? with
    | none => pure cells
    | some row =>
      (List.range timeSlice.length).foldlM (fun cells2 (j : ℕ) =>
        match row[j]? with
        | none => pure cells2
        | some power =>
          match getColor cmap power minPower maxPower with
          | none => Except.error ("TypeError in getColor")
          | some rgb =>
            pure (cells2 ++ [Cell.mk ((j : ℚ) * pixelWidth)
              (height - ((i : ℚ) + 1) * pixelHeight)
              (pixelWidth * zoom) (pixelHeight * zoom) rgb])) cells) []

/-- `drawSingleSpectrogram` of part_003 (and the body of `drawSpectrogram` in
spectrogram-visualization.tsx): project the selected channel and run the
drawing core; the structure check (`if (!spectrogramData || ...) throw`)
fires when the channel key is absent. -/
def drawSingleSpectrogram (d : ParsedEEGData) (selectedChannel cmapName : String)
    (lo hi zoom width height : ℚ) : Except String (List Cell) :=
  match convertToSpectrogramData d selectedChannel with
  | none => Except.error ("Invalid spectrogram data format")
  | some sd => drawSpectrogramCells cmapName lo hi zoom width height sd

/-! ## Segment combiner (`drawCombinedSpectrogram`) -/

/-- The concatenated time axis of the combined view: for each segment (one
per sorted offset — the source reuses the same channel data for every
segment, so only the count matters here) append the local times shifted by
the running `currentTimeOffset`, then advance the offset by
`times[times.length - 1] + 1` (last local time plus a fixed 1-unit gap;
empty local `times`, where JS would produce NaN, appends nothing and is
modelled via `getD 0`). -/
def appendSegments (times : List ℚ) : List ℚ → ℚ → List ℚ
  | [], _ => []
  | _ :: rest, cur =>
    times.map (fun t => cur + t) ++
      appendSegments times rest (cur + (times.getLast?.getD 0 + 1))

/-- The segment-boundary positions the source's divider loop visits: one per
sorted offset except the last (`if (index === sortedOffsets.length - 1)
return`), the running `segmentEndTime` after `idx + 1` increments of
`timeSegmentLength`.  These are indices into the concatenated arrays. -/
def segmentEndTimes (timeSegmentLength : ℕ) (sortedOffsets : List ℚ) : List ℕ :=
  (List.range sortedOffsets.length).filterMap (fun idx =>
    if idx = sortedOffsets.length - 1 then none
    else some ((idx + 1) * timeSegmentLength))

/-- The boundaries the divider loop actually draws: those within the visible
index window (`segmentEndTime >= startTimeIndex && segmentEndTime <=
endTimeIndex`). -/
def drawnDividers (timeSegmentLength startTimeIndex endTimeIndex : ℕ)
    (sortedOffsets : List ℚ) : List ℕ :=
  (segmentEndTimes timeSegmentLength sortedOffsets).filter
    (fun b => decide (startTimeIndex ≤ b ∧ b ≤ endTimeIndex))

/-- Everything `drawCombinedSpectrogram` puts on the canvas once it runs to
completion: the concatenated time axis, the filled cells, and the drawn
segment dividers (the divider loop runs after the cell loop, so dividers
exist only on the non-throwing path). -/
structure CombinedResult where
  concatenatedTimes : List ℚ
  cells : List Cell
  dividers : List ℕ
deriving Repr, DecidableEq

/-- `drawCombinedSpectrogram` of part_003.  `none` models the silent early
`return` on an empty `offsets` list (no error, nothing drawn).  Otherwise:
sort offsets ascending, project the channel (`throw` on a missing channel,
as in the single draw), concatenate per-offset copies of the data — the
per-offset variation is only the `1 + offset / 10` multiplicative modifier
the source applies in place of real per-segment data — then scan min/max
over the CONCATENATED matrix, slice by the time-range percentages, draw the
cell grid, and finally the visible segment dividers. -/
def drawCombinedSpectrogram (d : ParsedEEGData) (selectedChannel : String)
    (offsets : List ℚ) (cmapName : String) (lo hi zoom width height : ℚ) :
    Option (Except String CombinedResult) :=
  if offsets.isEmpty then none
  else some (
    match convertToSpectrogramData d selectedChannel with
    | none => Except.error ("Invalid spectrogram data format")
    | some sd =>
      let sortedOffsets := List.insertionSort (· ≤ ·) offsets
      let timeSegmentLength := sd.times.length
      let concatenatedTimes := appendSegments sd.times sortedOffsets 0
      let concatenatedPowerValues := (List.range sd.frequencies.length).map (fun fi =>
        (sortedOffsets.map (fun off =>
          (sd.powerValues.getD fi []).map (fun v => v * (1 + off / 10)))).flatten)
      let minPower := minPowerOf concatenatedPowerValues
      let maxPower := maxPowerOf concatenatedPowerValues
      let totalTimePoints := concatenatedTimes.length
      let startTimeIndex := (⌊(totalTimePoints : ℚ) * (lo / 100)⌋).toNat
      let endTimeIndex := (⌈(totalTimePoints : ℚ) * (hi / 100)⌉).toNat
      let timeSlice := (concatenatedTimes.take endTimeIndex).drop startTimeIndex
      let powerSlice := concatenatedPowerValues.map (fun row =>
        (row.take endTimeIndex).drop startTimeIndex)
      let pixelWidth := width / (if timeSlice.length = 0 then 1 else (timeSlice.length : ℚ))
      let pixelHeight := height / (if sd.frequencies.length = 0 then 1 else (sd.frequencies.length : ℚ))
      let cmap := selectColorMap cmapName
      let cellsE := (List.range sd.frequencies.length).foldlM (fun cells (i : ℕ) =>
        (List.range timeSlice.length).foldlM (fun cells2 (j : ℕ) =>
          match (powerSlice.getD i [])[j]? with
          | none => pure cells2
          | some power =>
            match getColor cmap power minPower maxPower with
            | none => Except.error ("TypeError in getColor")
            | some rgb =>
              pure (cells2 ++ [Cell.mk ((j : ℚ) * pixelWidth)
                (height - ((i : ℚ) + 1) * pixelHeight)
                (pixelWidth * zoom) (pixelHeight * zoom) rgb])) cells) ([] : List Cell)
      match cellsE with
      | Except.error msg => Except.error msg
      | Except.ok cells =>
        Except.ok
          { concatenatedTimes := concatenatedTimes
            cells := cells
            dividers := drawnDividers timeSegmentLength startTimeIndex endTimeIndex
              sortedOffsets })

deriving instance DecidableEq for Except

/-- Outcome of the view-mode dispatcher: which drawing routine ran and what
it produced.  `combined none` is `drawCombinedSpectrogram`'s silent early
return. -/
inductive DrawOutcome where
  | single (res : Except String (List Cell))
  | combined (res : Option (Except String CombinedResult))
deriving Repr, DecidableEq

/-- The view-mode dispatch of `drawSpectrogram` (part_003, lines 116-125):
individual mode with a selected offset draws the single view; combined mode
with a NON-EMPTY offsets list draws the combined view; everything else —
including combined mode with absent or empty offsets — falls back to the
single view. -/
def drawSpectrogram (viewMode : String) (selectedOffset : Option ℚ)
    (offsets : Option (List ℚ)) (d : ParsedEEGData) (selectedChannel cmapName : String)
    (lo hi zoom width height : ℚ) : DrawOutcome :=
  if viewMode = ("individual") ∧ selectedOffset.isSome then
    DrawOutcome.single (drawSingleSpectrogram d selectedChannel cmapName lo hi zoom width height)
  else if viewMode = ("combined") ∧ (offsets.getD []).length > 0 then
    DrawOutcome.combined (drawCombinedSpectrogram d selectedChannel (offsets.getD [])
      cmapName lo hi zoom width height)
  else
    DrawOutcome.single (drawSingleSpectrogram d selectedChannel cmapName lo hi zoom width height)

/-! ## Concrete fixtures used by witnesses and counterexamples -/

/-- Trivial `SpectrogramData` metadata for fixtures. -/
def md0 : SpectrogramMetadata := ⟨"", "", 0, 0⟩

/-- Trivial `ParsedEEGData` metadata for fixtures. -/
def em0 : EEGMetadata := ⟨"", "", 0, 0, 0⟩

/-- A two-frame, one-frequency view whose two power values differ: its left
half (time range 0–50%) sees only the value 10. -/
def sd1 : SpectrogramData := ⟨[0, 1], [5], [[10, 20]], md0⟩

/-- A one-cell view whose power values are all equal (min = max). -/
def sd2 : SpectrogramData := ⟨[0], [1], [[7]], md0⟩

/-- Table with the spec's example column set for channel LL:
`{"LL_3.0", "LL_0.5", "LL_10.2"}`. -/
def tblC4 : ColumnarTable :=
  ⟨1, [⟨"LL_3.0", [some 1]⟩, ⟨"LL_0.5", [some 2]⟩, ⟨"LL_10.2", [some 3]⟩], []⟩

/-- Table with one frame and one LL power column; channel RP matches zero
columns. -/
def tbl9 : ColumnarTable :=
  ⟨1, [⟨"time", [some 0]⟩, ⟨"LL_1.0", [some 5]⟩], []⟩

/-- Recording with a 3-frame, 2-frequency LL channel (the spec's
average-power example matrix `[[1,2],[3,4],[5,6]]`). -/
def d5 : ParsedEEGData :=
  ⟨[0, 1, 2], [(("LL"), ⟨[10, 20], [[1, 2], [3, 4], [5, 6]]⟩)], em0⟩

/-- Recording with a 3-frame, 2-frequency LL channel used for the transpose
witness. -/
def d3 : ParsedEEGData :=
  ⟨[0, 1, 2], [(("LL"), ⟨[1, 2], [[10, 20], [30, 40], [50, 60]]⟩)], em0⟩

/-- Small recording used by the empty-offsets counterexample. -/
def d8 : ParsedEEGData := ⟨[0], [(("LL"), ⟨[1], [[4]]⟩)], em0⟩

/-- The LL channel of `d3`. -/
def cd3 : ChannelData := ⟨[1, 2], [[10, 20], [30, 40], [50, 60]]⟩

/-- The projected view of `d3`'s LL channel (its transpose). -/
def sd3 : SpectrogramData := ⟨[0, 1, 2], [1, 2], [[10, 30, 50], [20, 40, 60]], md0⟩

end UcfEeg

namespace UcfEeg

/-! ## Helper lemmas -/

theorem foldl_min_le (l : List ℚ) :
    ∀ a : ℚ, l.foldl min a ≤ a ∧ ∀ v ∈ l, l.foldl min a ≤ v := by
  induction l with
  | nil => intro a; exact ⟨le_refl a, by simp⟩
  | cons x xs ih =>
    intro a
    have h := ih (min a x)
    refine ⟨le_trans h.1 (min_le_left a x), ?_⟩
    intro v hv
    rcases List.mem_cons.mp hv with h1 | h2
    · subst h1; exact le_trans h.1 (min_le_right a v)
    · exact h.2 v h2

theorem foldl_min_mem (l : List ℚ) :
    ∀ a : ℚ, l.foldl min a = a ∨ l.foldl min a ∈ l := by
  induction l with
  | nil => intro a; left; rfl
  | cons x xs ih =>
    intro a
    rcases ih (min a x) with h | h
    · rcases min_choice a x with hc | hc
      · left; rw [List.foldl_cons, h, hc]
      · right; rw [List.foldl_cons, h, hc]; exact List.mem_cons_self x xs
    · right; exact List.mem_cons_of_mem x h

theorem foldl_max_ge (l : List ℚ) :
    ∀ a : ℚ, a ≤ l.foldl max a ∧ ∀ v ∈ l, v ≤ l.foldl max a := by
  induction l with
  | nil => intro a; exact ⟨le_refl a, by simp⟩
  | cons x xs ih =>
    intro a
    have h := ih (max a x)
    refine ⟨le_trans (le_max_left a x) h.1, ?_⟩
    intro v hv
    rcases List.mem_cons.mp hv with h1 | h2
    · subst h1; exact le_trans (le_max_right a v) h.1
    · exact h.2 v h2

theorem foldl_max_mem (l : List ℚ) :
    ∀ a : ℚ, l.foldl max a = a ∨ l.foldl max a ∈ l := by
  induction l with
  | nil => intro a; left; rfl
  | cons x xs ih =>
    intro a
    rcases ih (max a x) with h | h
    · rcases max_choice a x with hc | hc
      · left; rw [List.foldl_cons, h, hc]
      · right; rw [List.foldl_cons, h, hc]; exact List.mem_cons_self x xs
    · right; exact List.mem_cons_of_mem x h

theorem getD_map_range {β : Type} (g : ℕ → β) {n i : ℕ} (d : β) (h : i < n) :
    ((List.range n).map g).getD i d = g i := by
  rw [List.getD_eq_getElem?_getD, List.getElem?_map, List.getElem?_range h]
  rfl

theorem getD_map_lt {α β : Type} (l : List α) (f : α → β) {i : ℕ} (d : β) (d' : α)
    (h : i < l.length) : (l.map f).getD i d = f (l.getD i d') := by
  rw [List.getD_eq_getElem?_getD, List.getElem?_map, List.getD_eq_getElem?_getD,
    List.getElem?_eq_getElem h]
  rfl

theorem channels_parse (tbl : ColumnarTable) :
    (parseEEGParquet tbl).channels =
      [(("LL"), buildChannel tbl ("LL")), (("RL"), buildChannel tbl ("RL")),
       (("LP"), buildChannel tbl ("LP")), (("RP"), buildChannel tbl ("RP"))] := rfl

theorem mem_channels {tbl : ColumnarTable} {ch : String} {cd : ChannelData}
    (h : (ch, cd) ∈ (parseEEGParquet tbl).channels) : cd = buildChannel tbl ch := by
  rw [channels_parse] at h
  simp only [List.mem_cons, List.not_mem_nil, or_false] at h
  rcases h with h | h | h | h <;>
    (rw [Prod.mk.injEq] at h; obtain ⟨h1, h2⟩ := h; subst h1; exact h2)

theorem lookup_parse {tbl : ColumnarTable} {ch : String} {cd : ChannelData}
    (h : lookupChannel (parseEEGParquet tbl) ch = some cd) : cd = buildChannel tbl ch := by
  unfold lookupChannel at h
  cases hfind : (parseEEGParquet tbl).channels.find? (fun p => decide (p.1 = ch)) with
  | none => rw [hfind] at h; exact absurd h (by simp)
  | some p =>
    rw [hfind] at h
    have h2 : p.2 = cd := by simpa using h
    have hpred := List.find?_some hfind
    have hmem := List.mem_of_find?_eq_some hfind
    have hch : p.1 = ch := of_decide_eq_true hpred
    have hp : p = (ch, cd) := by
      cases p with
      | mk a b => simp only [Prod.mk.injEq]; exact ⟨hch, h2⟩
    exact mem_channels (hp ▸ hmem)

theorem timesOf_length (tbl : ColumnarTable) : (timesOf tbl).length = tbl.numRows := by
  simp [timesOf]

theorem sum_list_range (f : ℕ → ℚ) : ∀ n : ℕ,
    ((List.range n).map f).sum = ∑ i ∈ Finset.range n, f i := by
  intro n
  induction n with
  | zero => simp
  | succ m ih =>
    rw [List.range_succ, List.map_append, List.sum_append, Finset.sum_range_succ, ih]
    simp

theorem appendSegments_length (times : List ℚ) : ∀ (offs : List ℚ) (cur : ℚ),
    (appendSegments times offs cur).length = offs.length * times.length := by
  intro offs
  induction offs with
  | nil => intro cur; simp [appendSegments]
  | cons o rest ih =>
    intro cur
    show (times.map (fun t => cur + t) ++ _).length = _
    rw [List.length_append, List.length_map, ih]
    simp [Nat.succ_mul, Nat.add_comm]

theorem appendSegments_lb (times : List ℚ) (hpos : ∀ t ∈ times, 0 ≤ t) :
    ∀ (offs : List ℚ) (cur : ℚ), ∀ y ∈ appendSegments times offs cur, cur ≤ y := by
  intro offs
  induction offs with
  | nil => intro cur y hy; simp [appendSegments] at hy
  | cons o rest ih =>
    intro cur y hy
    rcases List.mem_append.mp hy with h | h
    · obtain ⟨t, ht, rfl⟩ := List.mem_map.mp h
      have := hpos t ht
      linarith
    · have h2 := ih (cur + (times.getLast?.getD 0 + 1)) y h
      have h3 : 0 ≤ times.getLast?.getD 0 := by
        cases htimes : times.getLast? with
        | none => simp
        | some t =>
          simpa using hpos t (List.mem_of_getLast?_eq_some htimes)
      linarith

theorem chain_appendSegments (times : List ℚ) (hc : List.Chain' (· < ·) times)
    (hpos : ∀ t ∈ times, 0 ≤ t) :
    ∀ (offs : List ℚ) (cur : ℚ), List.Chain' (· < ·) (appendSegments times offs cur) := by
  intro offs
  induction offs with
  | nil => intro cur; simp [appendSegments]
  | cons o rest ih =>
    intro cur
    show List.Chain' (· < ·) (times.map (fun t => cur + t) ++ _)
    apply List.chain'_append.mpr
    refine ⟨?_, ih _, ?_⟩
    · exact (List.chain'_map _).mpr (hc.imp (fun a b h => by simpa using h))
    · intro x hx y hy
      rw [List.getLast?_map] at hx
      cases hlast : times.getLast? with
      | none => rw [hlast] at hx; exact absurd hx (by simp)
      | some tl =>
        rw [hlast] at hx
        have hx2 : x = cur + tl := by simpa using hx.symm
        have hy2 : cur + (times.getLast?.getD 0 + 1) ≤ y :=
          appendSegments_lb times hpos rest _ y (List.mem_of_mem_head? hy)
        rw [hlast] at hy2
        simp only [Option.getD_some] at hy2
        rw [hx2]
        linarith

theorem filterMap_if_ne {β : Type} (g : ℕ → β) (k : ℕ) :
    ∀ l : List ℕ, (∀ x ∈ l, x ≠ k) →
      l.filterMap (fun idx => if idx = k then none else some (g idx)) = l.map g := by
  intro l
  induction l with
  | nil => intro _; rfl
  | cons x xs ih =>
    intro h
    have hx : x ≠ k := h x (List.mem_cons_self x xs)
    rw [List.filterMap_cons, List.map_cons]
    simp only [hx, if_false]
    rw [ih (fun y hy => h y (List.mem_cons_of_mem x hy))]

theorem segmentEndTimes_length (L : ℕ) (os : List ℚ) :
    (segmentEndTimes L os).length = os.length - 1 := by
  unfold segmentEndTimes
  cases hn : os.length with
  | zero => simp
  | succ m =>
    simp only [Nat.add_sub_cancel]
    rw [List.range_succ, List.filterMap_append,
      filterMap_if_ne (fun idx => (idx + 1) * L) m (List.range m)
        (fun x hx => Nat.ne_of_lt (List.mem_range.mp hx))]
    simp

theorem drawnDividers_full (L : ℕ) (os : List ℚ) :
    drawnDividers L 0 (os.length * L) os = segmentEndTimes L os := by
  unfold drawnDividers
  apply List.filter_eq_self.mpr
  intro b hb
  obtain ⟨idx, hidx, hsome⟩ := List.mem_filterMap.mp hb
  by_cases hk : idx = os.length - 1
  · rw [if_pos hk] at hsome; exact absurd hsome (by simp)
  · rw [if_neg hk] at hsome
    have hb2 : (idx + 1) * L = b := by simpa using hsome
    subst hb2
    have hlt : idx < os.length := List.mem_range.mp hidx
    refine decide_eq_true ?_
    exact ⟨Nat.zero_le _, Nat.mul_le_mul_right L (Nat.succ_le_of_lt hlt)⟩

/-! ## Claims -/

/-- C10: for every input table, `parseEEGParquet`'s channels map has exactly
the four keys `LL`, `RL`, `LP`, `RP` (in the record's insertion order), and a
lookup of any of the four never fails. -/
theorem c10_channel_keys (tbl : ColumnarTable) :
    (parseEEGParquet tbl).channels.map Prod.fst = KNOWN_CHANNELS ∧
    (lookupChannel (parseEEGParquet tbl) ("LL")).isSome = true ∧
    (lookupChannel (parseEEGParquet tbl) ("RL")).isSome = true ∧
    (lookupChannel (parseEEGParquet tbl) ("LP")).isSome = true ∧
    (lookupChannel (parseEEGParquet tbl) ("RP")).isSome = true :=
  ⟨rfl, rfl, rfl, rfl, rfl⟩

/-- C6: every channel of a parsed recording has one `powerValues` row per
time index, and every row has one entry per frequency bin. -/
theorem c6_shape_invariant (tbl : ColumnarTable) (ch : String) (cd : ChannelData)
    (h : (ch, cd) ∈ (parseEEGParquet tbl).channels) :
    cd.powerValues.length = (parseEEGParquet tbl).times.length ∧
    ∀ row ∈ cd.powerValues, row.length = cd.frequencies.length := by
  have hcd := mem_channels h
  subst hcd
  constructor
  · simp [buildChannel, parseEEGParquet]
  · intro row hrow
    simp only [buildChannel] at hrow
    obtain ⟨t, ht, rfl⟩ := List.mem_map.mp hrow
    simp [buildChannel]

/-- Witness for C6 on the concrete table `tblC4`. -/
theorem c6_shape_invariant_witness :
    ((("LL"), buildChannel tblC4 ("LL")) ∈ (parseEEGParquet tblC4).channels) ∧
    ((buildChannel tblC4 ("LL")).powerValues.length = (parseEEGParquet tblC4).times.length ∧
      ∀ row ∈ (buildChannel tblC4 ("LL")).powerValues,
        row.length = (buildChannel tblC4 ("LL")).frequencies.length) :=
  ⟨by decide!, c6_shape_invariant tblC4 ("LL") (buildChannel tblC4 ("LL")) (by decide!)⟩

/-- C3: `convertToSpectrogramData` transposes the channel's
`[time][frequency]` matrix into `[frequency][time]` layout and carries
`times` and `frequencies` over unchanged. -/
theorem c3_transpose (d : ParsedEEGData) (ch : String) (cd : ChannelData)
    (sd : SpectrogramData) (hcd : lookupChannel d ch = some cd)
    (hsd : convertToSpectrogramData d ch = some sd) :
    sd.times = d.times ∧ sd.frequencies = cd.frequencies ∧
    ∀ f t, f < cd.frequencies.length → t < d.times.length →
      (sd.powerValues.getD f []).getD t 0 = (cd.powerValues.getD t []).getD f 0 := by
  rw [convertToSpectrogramData, hcd] at hsd
  simp only [Option.map_some'] at hsd
  have hx := Option.some.inj hsd
  have htimes : sd.times = d.times := by rw [← hx]
  have hfreq : sd.frequencies = cd.frequencies := by rw [← hx]
  have hpv : sd.powerValues = (List.range cd.frequencies.length).map (fun f =>
      (List.range d.times.length).map (fun t => getCell2 cd.powerValues t f)) := by
    rw [← hx]
  refine ⟨htimes, hfreq, ?_⟩
  intro f t hf ht
  rw [hpv, getD_map_range _ ([] : List ℚ) hf, getD_map_range _ (0 : ℚ) ht]
  rfl

/-- Witness for C3 on the concrete recording `d3`: the projected view of
channel LL is the transpose `sd3`, and the `[f][t] = [t][f]` equation holds
at `f = 1`, `t = 2` with value 60. -/
theorem c3_transpose_witness :
    (sd3.powerValues.getD 1 []).getD 2 0 = (cd3.powerValues.getD 2 []).getD 1 0 ∧
    (sd3.powerValues.getD 1 []).getD 2 0 = 60 :=
  ⟨(c3_transpose d3 ("LL") cd3 sd3 (by decide!) (by decide!)).2.2 1 2 (by decide!) (by decide!),
   by decide!⟩

/-- C4: the builder sorts each channel's matched `(name, frequency)` pairs
ascending by parsed frequency: `frequencies` is sorted and a permutation of
the parsed frequencies, and the `powerValues` columns are permuted to match
(column `fi` is read from the `fi`-th sorted column's cells). -/
theorem c4_sorted_frequencies (tbl : ColumnarTable) (ch : String) :
    ((buildChannel tbl ch).frequencies).Pairwise (· ≤ ·) ∧
    ((buildChannel tbl ch).frequencies).Perm ((matchedCols tbl ch).map Prod.snd) ∧
    ∀ fi, fi < (sortedCols tbl ch).length →
      ((buildChannel tbl ch).frequencies.getD fi 0 = ((sortedCols tbl ch).getD fi (("", 0))).2 ∧
       ∀ ti, ti < (timesOf tbl).length →
         (((buildChannel tbl ch).powerValues).getD ti []).getD fi 0 =
           cellAt tbl ((sortedCols tbl ch).getD fi (("", 0))).1 ti) := by
  refine ⟨?_, ?_, ?_⟩
  · have hs : List.Sorted freqLE (sortedCols tbl ch) :=
      List.sorted_insertionSort freqLE (matchedCols tbl ch)
    exact List.Pairwise.map Prod.snd (fun a b hab => hab) hs
  · have hp : (sortedCols tbl ch).Perm (matchedCols tbl ch) :=
      List.perm_insertionSort freqLE (matchedCols tbl ch)
    exact hp.map Prod.snd
  · intro fi hfi
    constructor
    · exact getD_map_lt (sortedCols tbl ch) Prod.snd (0 : ℚ) (("", 0)) hfi
    · intro ti hti
      rw [show ((buildChannel tbl ch).powerValues) =
        (List.range (timesOf tbl).length).map (fun t =>
          (sortedCols tbl ch).map (fun col => cellAt tbl col.1 t)) from rfl]
      rw [getD_map_range _ ([] : List ℚ) hti]
      exact getD_map_lt (sortedCols tbl ch) _ (0 : ℚ) (("", 0)) hfi

/-- Witness for C4 on the spec's example columns
`{"LL_3.0", "LL_0.5", "LL_10.2"}`: the built frequencies are
`[0.5, 3.0, 10.2]`, and the sorted-column indexing equations hold at
`fi = 0`, `ti = 0`. -/
theorem c4_sorted_frequencies_witness :
    (buildChannel tblC4 ("LL")).frequencies = [1 / 2, 3, 51 / 5] ∧
    (buildChannel tblC4 ("LL")).frequencies.getD 0 0 =
      ((sortedCols tblC4 ("LL")).getD 0 (("", 0))).2 ∧
    (((buildChannel tblC4 ("LL")).powerValues).getD 0 []).getD 0 0 =
      cellAt tblC4 ((sortedCols tblC4 ("LL")).getD 0 (("", 0))).1 0 :=
  ⟨by decide!,
   ((c4_sorted_frequencies tblC4 ("LL")).2.2 0 (by decide!)).1,
   ((c4_sorted_frequencies tblC4 ("LL")).2.2 0 (by decide!)).2 0 (by decide!)⟩

/-- C5: `getAveragePowerSpectrum` throws exactly when `startTimeIndex < 0`,
`endTimeIndex ≥ N` or `startTimeIndex > endTimeIndex`; on every in-range pair
it returns, per channel and per frequency index, the arithmetic mean of
`powerValues[t][f]` over `t ∈ [startTimeIndex, endTimeIndex]` inclusive. -/
theorem c5_average_power (d : ParsedEEGData) (s e : ℤ) :
    (getAveragePowerSpectrum d s e = Except.error ("Time indices out of bounds") ↔
      (s < 0 ∨ (d.times.length : ℤ) ≤ e ∨ e < s)) ∧
    (0 ≤ s → s ≤ e → e < (d.times.length : ℤ) →
      getAveragePowerSpectrum d s e =
        Except.ok (d.channels.map (fun p => (p.1, averagePowerSpec p.2 s e)))) := by
  constructor
  · by_cases hcond : s < 0 ∨ (d.times.length : ℤ) ≤ e ∨ s > e
    · rw [getAveragePowerSpectrum, if_pos hcond]
      exact iff_of_true rfl hcond
    · rw [getAveragePowerSpectrum, if_neg hcond]
      constructor
      · intro h; exact absurd h (by simp)
      · intro h; exact absurd h hcond
  · intro h1 h2 h3
    have hcond : ¬(s < 0 ∨ (d.times.length : ℤ) ≤ e ∨ s > e) := by
      push_neg
      exact ⟨not_lt.mp (by omega), by omega, by omega⟩
    rw [getAveragePowerSpectrum, if_neg hcond]
    congr 1
    apply List.map_congr_left
    intro p hp
    rw [Prod.mk.injEq]
    refine ⟨rfl, ?_⟩
    unfold averagePowerSpec
    apply List.map_congr_left
    intro f0 hf0
    congr 1
    rw [sum_list_range]
    rw [show (e - s + 1).toNat = e.toNat + 1 - s.toNat from by omega]
    rw [← Nat.Ico_succ_right, Finset.sum_Ico_eq_sum_range]

/-- Witness for C5: on `d5`'s matrix `[[1,2],[3,4],[5,6]]`, the range
`(0, 2)` yields `[3, 4]`, and the reversed range `(2, 1)` throws. -/
theorem c5_average_power_witness :
    getAveragePowerSpectrum d5 0 2 = Except.ok ([(("LL"), [(3 : ℚ), 4])]) ∧
    getAveragePowerSpectrum d5 2 1 = Except.error ("Time indices out of bounds") :=
  ⟨((c5_average_power d5 0 2).2 (by decide!) (by decide!) (by decide!)).trans (by decide!),
   ((c5_average_power d5 2 1).1).mpr (by decide!)⟩

/-- C1 (amended): the `minPower`/`maxPower` that `drawSpectrogramCells` feeds
to `getColor` are computed over the WHOLE power matrix of the view, before
the time-range filter: `minPowerOf`/`maxPowerOf` are attained by and bound
every entry of the full matrix, not only the visible slice. -/
theorem c1_global_minmax (pv : List (List ℚ)) (h : pv.flatten ≠ []) :
    minPowerOf pv ∈ pv.flatten ∧ maxPowerOf pv ∈ pv.flatten ∧
    ∀ v ∈ pv.flatten, minPowerOf pv ≤ v ∧ v ≤ maxPowerOf pv := by
  cases hfl : pv.flatten with
  | nil => exact absurd hfl h
  | cons x xs =>
    have hmin : minPowerOf pv = xs.foldl min x := by
      unfold minPowerOf; rw [hfl]
    have hmax : maxPowerOf pv = xs.foldl max x := by
      unfold maxPowerOf; rw [hfl]
    rw [hmin, hmax]
    refine ⟨?_, ?_, ?_⟩
    · rcases foldl_min_mem xs x with h1 | h1
      · rw [h1]; exact List.mem_cons_self x xs
      · exact List.mem_cons_of_mem x h1
    · rcases foldl_max_mem xs x with h1 | h1
      · rw [h1]; exact List.mem_cons_self x xs
      · exact List.mem_cons_of_mem x h1
    · intro v hv
      rcases List.mem_cons.mp hv with h1 | h1
      · subst h1; exact ⟨(foldl_min_le xs v).1, (foldl_max_ge xs v).1⟩
      · exact ⟨(foldl_min_le xs x).2 v h1, (foldl_max_ge xs x).2 v h1⟩

/-- Witness for C1 on the matrix `[[10, 20]]`. -/
theorem c1_global_minmax_witness :
    minPowerOf [[(10 : ℚ), 20]] ∈ ([[(10 : ℚ), 20]] : List (List ℚ)).flatten ∧
    maxPowerOf [[(10 : ℚ), 20]] ∈ ([[(10 : ℚ), 20]] : List (List ℚ)).flatten ∧
    ∀ v ∈ ([[(10 : ℚ), 20]] : List (List ℚ)).flatten,
      minPowerOf [[(10 : ℚ), 20]] ≤ v ∧ v ≤ maxPowerOf [[(10 : ℚ), 20]] :=
  c1_global_minmax [[(10 : ℚ), 20]] (by decide)

/-- Counterexample to C1 as stated: on the view `sd1` (values 10 and 20, only
10 visible in the 0–50% window) the source's draw differs from the
spec-modelled draw that scales over the visible slice only — the source draws
the cell with the global scaling `10..20` while the slice-local scaling would
degenerate to `min = max`. -/
theorem c1_counterexample :
    drawSpectrogramCells ("viridis") 0 50 1 800 400 sd1 ≠
      drawSpectrogramCellsSpec ("viridis") 0 50 1 800 400 sd1 := by decide!

/-- C2 (amended): when `minPower == maxPower` the color interpolation has no
divide-by-zero guard; the normalized value is NaN (`0/0`), the palette access
at the NaN index fails, and `getColor` produces no RGB triple at all (the
draw aborts into the component's catch handler). -/
theorem c2_min_eq_max_no_color (cmapName : String) (v m : ℚ) :
    getColor (selectColorMap cmapName) v m m = none := by
  unfold getColor
  rw [if_pos (by ring)]

/-- Counterexample to C2 as stated: rendering the constant view `sd2`
(`minPower == maxPower == 7`) does not color the cell with the palette's
first control point; the draw throws out of `getColor`. -/
theorem c2_counterexample :
    drawSpectrogramCells ("viridis") 0 100 1 800 400 sd2 =
      Except.error ("TypeError in getColor") := by decide!

/-- C8 (amended): an empty offsets list is not an error anywhere: the
combiner returns silently without drawing (`none`), and in combined view
mode the dispatcher falls back to the single-segment view. -/
theorem c8_empty_offsets_noop (d : ParsedEEGData) (selectedChannel cmapName : String)
    (selectedOffset : Option ℚ) (lo hi zoom width height : ℚ) :
    drawCombinedSpectrogram d selectedChannel [] cmapName lo hi zoom width height = none ∧
    drawSpectrogram ("combined") selectedOffset (some []) d selectedChannel cmapName
        lo hi zoom width height =
      DrawOutcome.single
        (drawSingleSpectrogram d selectedChannel cmapName lo hi zoom width height) :=
  ⟨rfl, rfl⟩

/-- Counterexample to C8 as stated: at the concrete recording `d8` with an
empty offsets list, the combiner is a silent no-op (`none`, no `EmptyOffsets`
error value exists on this path) and the dispatcher falls back to the
single-segment view. -/
theorem c8_counterexample :
    drawCombinedSpectrogram d8 ("LL") [] ("viridis") 0 100 1 800 400 = none ∧
    drawSpectrogram ("combined") none (some []) d8 ("LL") ("viridis") 0 100 1 800 400 =
      DrawOutcome.single (drawSingleSpectrogram d8 ("LL") ("viridis") 0 100 1 800 400) :=
  ⟨rfl, rfl⟩

/-- C7: for a non-empty offsets list and a non-negative, strictly increasing
local time axis, the combined view's concatenated time axis (the
`concatenatedTimes` field of `drawCombinedSpectrogram`, built by
`appendSegments` over the sorted offsets with cumulative offset advanced by
`lastLocalTime + 1`) is strictly increasing, the divider loop records
`offsets.length - 1` boundary positions (the trailing boundary after the last
segment is skipped), and over the full visible window (`timeRange = [0, 100]`,
for which the slice bounds reduce to `[0, concatenatedTimes.length]`) all of
them are drawn. -/
theorem c7_combined_monotone (times : List ℚ) (offsets : List ℚ) (_hne : offsets ≠ [])
    (hsorted : List.Chain' (· < ·) times) (hpos : ∀ t ∈ times, 0 ≤ t) :
    List.Chain' (· < ·) (appendSegments times (List.insertionSort (· ≤ ·) offsets) 0) ∧
    (segmentEndTimes times.length (List.insertionSort (· ≤ ·) offsets)).length =
      offsets.length - 1 ∧
    drawnDividers times.length 0
        ((appendSegments times (List.insertionSort (· ≤ ·) offsets) 0).length)
        (List.insertionSort (· ≤ ·) offsets) =
      segmentEndTimes times.length (List.insertionSort (· ≤ ·) offsets) := by
  have hlen : (List.insertionSort (· ≤ ·) offsets).length = offsets.length :=
    List.length_insertionSort (· ≤ ·) offsets
  refine ⟨chain_appendSegments times hsorted hpos _ 0, ?_, ?_⟩
  · rw [segmentEndTimes_length, hlen]
  · rw [appendSegments_length, hlen, ← hlen]
    exact drawnDividers_full times.length _

/-- Witness for C7 at `times = [0, 1]`, `offsets = [3, 1]`. -/
theorem c7_combined_monotone_witness :
    List.Chain' (· < ·)
      (appendSegments [(0 : ℚ), 1] (List.insertionSort (· ≤ ·) [(3 : ℚ), 1]) 0) ∧
    (segmentEndTimes ([(0 : ℚ), 1]).length (List.insertionSort (· ≤ ·) [(3 : ℚ), 1])).length =
      ([(3 : ℚ), 1]).length - 1 ∧
    drawnDividers ([(0 : ℚ), 1]).length 0
        ((appendSegments [(0 : ℚ), 1] (List.insertionSort (· ≤ ·) [(3 : ℚ), 1]) 0).length)
        (List.insertionSort (· ≤ ·) [(3 : ℚ), 1]) =
      segmentEndTimes ([(0 : ℚ), 1]).length (List.insertionSort (· ≤ ·) [(3 : ℚ), 1]) :=
  c7_combined_monotone [0, 1] [3, 1] (by decide)
    (by norm_num [List.chain'_cons, List.chain'_singleton]) (by decide!)

/-- C9 (amended): a channel that matches zero power columns yields
`frequencies = []` and `powerValues` consisting of one EMPTY row per time
index (`N` rows of `[]`, not the empty list the claim states — the projected
view's `powerValues` is then `[]`), building succeeds (the builder is total),
and rendering that channel completes without error, drawing an empty cell
raster. -/
theorem c9_empty_channel (tbl : ColumnarTable) (ch : String) (cd : ChannelData)
    (hm : matchedCols tbl ch = [])
    (hcd : lookupChannel (parseEEGParquet tbl) ch = some cd) :
    cd.frequencies = [] ∧ cd.powerValues = List.replicate tbl.numRows [] ∧
    ∀ cmapName lo hi zoom width height,
      drawSingleSpectrogram (parseEEGParquet tbl) ch cmapName lo hi zoom width height =
        Except.ok [] := by
  have hbc := lookup_parse hcd
  subst hbc
  have hsorted : sortedCols tbl ch = [] := by rw [sortedCols, hm]; rfl
  have hfreq : (buildChannel tbl ch).frequencies = [] := by
    show (sortedCols tbl ch).map Prod.snd = []
    rw [hsorted]; rfl
  have hpv : (buildChannel tbl ch).powerValues = List.replicate tbl.numRows [] := by
    show (List.range (timesOf tbl).length).map (fun t =>
      (sortedCols tbl ch).map (fun col => cellAt tbl col.1 t)) = _
    have h1 : ∀ row ∈ (List.range (timesOf tbl).length).map (fun t =>
        (sortedCols tbl ch).map (fun col => cellAt tbl col.1 t)), row = ([] : List ℚ) := by
      intro row hrow
      obtain ⟨t, ht, rfl⟩ := List.mem_map.mp hrow
      rw [hsorted]; rfl
    have h2 := List.eq_replicate_of_mem h1
    rw [h2]
    simp [timesOf_length]
  refine ⟨hfreq, hpv, ?_⟩
  intro cmapName lo hi zoom width height
  unfold drawSingleSpectrogram
  rw [convertToSpectrogramData, hcd]
  simp only [Option.map_some']
  unfold drawSpectrogramCells
  simp only [hfreq, List.length_nil, List.range_zero, List.foldlM_nil]
  rfl

/-- Witness for C9 on `tbl9` (channel RP matches zero columns). -/
theorem c9_empty_channel_witness :
    (⟨[], [[]]⟩ : ChannelData).frequencies = [] ∧
    (⟨[], [[]]⟩ : ChannelData).powerValues = List.replicate tbl9.numRows [] ∧
    drawSingleSpectrogram (parseEEGParquet tbl9) ("RP") ("viridis") 0 100 1 800 400 =
      Except.ok [] :=
  ⟨(c9_empty_channel tbl9 ("RP") ⟨[], [[]]⟩ (by decide!) (by decide!)).1,
   (c9_empty_channel tbl9 ("RP") ⟨[], [[]]⟩ (by decide!) (by decide!)).2.1,
   (c9_empty_channel tbl9 ("RP") ⟨[], [[]]⟩ (by decide!) (by decide!)).2.2
     ("viridis") 0 100 1 800 400⟩

/-- Counterexample to C9 as stated: on the one-frame table `tbl9`, channel RP
(zero matched columns) is built with `powerValues = [[]]` — one empty row per
time index — which is NOT the empty list the claim asserts. -/
theorem c9_counterexample :
    lookupChannel (parseEEGParquet tbl9) ("RP") = some ⟨[], [[]]⟩ ∧
    (⟨[], [[]]⟩ : ChannelData).powerValues ≠ ([] : List (List ℚ)) :=
  ⟨by decide!, by decide⟩

end UcfEeg
